import Mathlib

/-
Verification of the channel-selection and execution policy of RoachSlack
(src/main.go). The Go program is embedded shallowly: the selection loops
become recursive functions over a channel list, the sequential driver
becomes a function producing a trace of events plus an optional error,
and the paginated listing becomes a fuel-indexed loop over an abstract
fetch oracle.
-/

/-- A channel snapshot as consumed from the directory listing. Mirrors the
fields of slack.Channel that src/main.go reads: ID, Name, IsMember,
IsExtShared. -/
structure Channel where
  id : String
  name : String
  isMember : Bool
  isExtShared : Bool
deriving DecidableEq, Repr

/-- The fixed list of default support channels, src/main.go lines 15-20. -/
def defaultSupportChannels : List String :=
  ["customersupport", "frame", "monitoring", "sentry"]

/-- Lexicographic comparison of character lists, the order sort.Strings uses
(ascending). Computable by the kernel, unlike the iterator-based order on
String. -/
def listCharLe : List Char → List Char → Bool
  | [], _ => true
  | _ :: _, [] => false
  | a :: as, b :: bs => if a < b then true else if a = b then listCharLe as bs else false

/-- Lexicographic order on strings as a boolean function. -/
def strLe (a b : String) : Bool := listCharLe a.data b.data

theorem listCharLe_total : ∀ as bs : List Char, listCharLe as bs = true ∨ listCharLe bs as = true := by
  intro as
  induction as with
  | nil => intro bs; left; rfl
  | cons a as ih =>
    intro bs
    cases bs with
    | nil => right; rfl
    | cons b bs =>
      rcases lt_trichotomy a b with h | h | h
      · left; simp [listCharLe, h]
      · subst h
        rcases ih bs with h2 | h2
        · left; simp [listCharLe, h2]
        · right; simp [listCharLe, h2]
      · right; simp [listCharLe, h]

theorem listCharLe_trans : ∀ as bs cs : List Char,
    listCharLe as bs = true → listCharLe bs cs = true → listCharLe as cs = true := by
  intro as
  induction as with
  | nil => intro bs cs _ _; rfl
  | cons a as ih =>
    intro bs cs hab hbc
    cases bs with
    | nil => simp [listCharLe] at hab
    | cons b bs =>
      cases cs with
      | nil => simp [listCharLe] at hbc
      | cons c cs =>
        simp only [listCharLe] at hab hbc ⊢
        by_cases h1 : a < b
        · by_cases h2 : b < c
          · simp [lt_trans h1 h2]
          · by_cases h3 : b = c
            · subst h3; simp [h1]
            · simp [h2, h3] at hbc
        · by_cases h1e : a = b
          · subst h1e
            by_cases h2 : a < c
            · simp [h2]
            · by_cases h3 : a = c
              · subst h3
                simp only [lt_irrefl, if_false, if_pos rfl] at hab hbc ⊢
                exact ih bs cs hab hbc
              · simp [h2, h3] at hbc
          · simp [h1, h1e] at hab

theorem listCharLe_iff_not_lex : ∀ as bs : List Char,
    listCharLe as bs = true ↔ ¬ List.Lex (fun x y : Char => x < y) bs as := by
  intro as
  induction as with
  | nil =>
    intro bs
    simp only [listCharLe]
    constructor
    · intro _ h; exact List.Lex.not_nil_right _ _ h
    · intro _; trivial
  | cons a as ih =>
    intro bs
    cases bs with
    | nil =>
      simp only [listCharLe]
      constructor
      · intro h; cases h
      · intro h; exact absurd (List.Lex.nil) h
    | cons b bs =>
      simp only [listCharLe]
      rcases lt_trichotomy a b with h | h | h
      · simp only [if_pos h]
        constructor
        · intro _ hlex
          cases hlex with
          | cons h2 => exact absurd h (lt_irrefl a)
          | rel h2 => exact absurd (lt_trans h h2) (lt_irrefl a)
        · intro _; trivial
      · subst h
        have hred : (if a < a then true else if a = a then listCharLe as bs else false)
            = listCharLe as bs := by simp
        rw [hred, ih bs]
        constructor
        · intro h hlex
          cases hlex with
          | cons h2 => exact h h2
          | rel h2 => exact absurd h2 (lt_irrefl a)
        · intro h h2; exact h (List.Lex.cons h2)
      · have hne : ¬ a = b := fun he => absurd h (he ▸ lt_irrefl a)
        have hnl : ¬ a < b := fun hl => absurd (lt_trans h hl) (lt_irrefl b)
        simp only [if_neg hnl, if_neg hne]
        constructor
        · intro hf; cases hf
        · intro hcon; exact absurd (List.Lex.rel h) hcon

theorem strLe_iff_le (a b : String) : strLe a b = true ↔ a ≤ b := by
  rw [strLe, listCharLe_iff_not_lex]
  rw [String.le_iff_toList_le]
  constructor
  · intro h
    by_contra hc
    rw [not_le] at hc
    exact h hc
  · intro h hlex
    exact absurd hlex (not_lt_of_le h)

instance : IsTotal String (fun a b => strLe a b = true) :=
  ⟨fun a b => listCharLe_total a.data b.data⟩

instance : IsTrans String (fun a b => strLe a b = true) :=
  ⟨fun a b c => listCharLe_trans a.data b.data c.data⟩

/-- Ascending lexicographic sort of a list of names, embedding the
sort.Strings call at src/main.go lines 132 and 219. -/
def sortStrings (l : List String) : List String :=
  List.insertionSort (fun a b => strLe a b = true) l

theorem sortStrings_perm (l : List String) : List.Perm (sortStrings l) l :=
  List.perm_insertionSort _ l

theorem sortStrings_sorted (l : List String) :
    List.Sorted (fun a b : String => a ≤ b) (sortStrings l) := by
  have h := List.sorted_insertionSort (fun a b => strLe a b = true) l
  exact h.imp (fun hab => (strLe_iff_le _ _).mp hab)

theorem mem_sortStrings {n : String} {l : List String} : n ∈ sortStrings l ↔ n ∈ l :=
  (sortStrings_perm l).mem_iff

theorem sortStrings_nodup {l : List String} (h : l.Nodup) : (sortStrings l).Nodup :=
  ((sortStrings_perm l).nodup_iff).mpr h

theorem sortStrings_eq_nil_iff {l : List String} : sortStrings l = [] ↔ l = [] := by
  constructor
  · intro h
    have := (sortStrings_perm l).length_eq
    rw [h] at this
    exact List.eq_nil_of_length_eq_zero this.symm
  · intro h; subst h; rfl

/-- Test whether the string p is an initial segment of the string s,
embedding the strings.HasPrefix calls of src/main.go. Computable by the
kernel, unlike the iterator-based String.startsWith. -/
def hasPrefix (s p : String) : Bool :=
  List.isPrefixOf p.data s.data

/-- The channel-filtering loop of the joinSupport command, src/main.go lines
100-123: skip channels the user is already a member of; add every channel
whose name starts with an underscore; otherwise scan the default list and
add the name once per matching default entry, recording the channel id in
the name-to-id map. Names are produced in input order; the id map is
represented as the chronological list of insertions. -/
def joinFilter : List Channel → List String × List (String × String)
  | [] => ([], [])
  | c :: rest =>
    let acc := joinFilter rest
    if c.isMember then acc
    else if hasPrefix c.name ("_") then
      (c.name :: acc.1, (c.name, c.id) :: acc.2)
    else
      let hits := defaultSupportChannels.filter (fun d => d = c.name)
      (hits.map (fun _ => c.name) ++ acc.1, hits.map (fun _ => (c.name, c.id)) ++ acc.2)

/-- The channel-filtering loop of the leaveSupport command, src/main.go lines
190-210: skip channels the user is not a member of; among names starting
with an underscore, externally shared channels go to the cannot-leave list,
the rest go to the leave list together with their id. -/
def leaveFilter : List Channel → List String × List String × List (String × String)
  | [] => ([], [], [])
  | c :: rest =>
    let acc := leaveFilter rest
    if !c.isMember then acc
    else if hasPrefix c.name ("_") then
      if c.isExtShared then (acc.1, c.name :: acc.2.1, acc.2.2)
      else (c.name :: acc.1, acc.2.1, (c.name, c.id) :: acc.2.2)
    else acc

/-- Lookup in the name-to-id map, with Go map semantics: the latest
insertion for a key wins, and a missing key yields the empty string. -/
def mapLookup (m : List (String × String)) (k : String) : String :=
  (m.foldl (fun acc p => if p.1 = k then some p.2 else acc) none).getD ""

/-- The two operation modes of the tool. -/
inductive RunMode
  | Join
  | Leave
deriving DecidableEq, Repr

/-- Result of the channel selector: the sorted list of target names and the
list of names that cannot be acted on via the API (Leave mode only). -/
structure SelectionResult where
  orderedNames : List String
  unreachable : List String
deriving DecidableEq, Repr

/-- The channel selector: the filtering loop of the requested mode followed
by the sort.Strings call (src/main.go lines 100-132 and 190-219). In Join
mode nothing is unreachable; in Leave mode the externally shared
underscore-named member channels are. -/
def selector (channels : List Channel) : RunMode → SelectionResult
  | RunMode.Join => { orderedNames := sortStrings (joinFilter channels).1, unreachable := [] }
  | RunMode.Leave =>
    { orderedNames := sortStrings (leaveFilter channels).1,
      unreachable := (leaveFilter channels).2.1 }

theorem filter_eq_of_nodup {α : Type} [DecidableEq α] :
    ∀ (l : List α), l.Nodup → ∀ a : α,
      l.filter (fun d => d = a) = if a ∈ l then [a] else [] := by
  intro l
  induction l with
  | nil => intro _ a; simp
  | cons b l ih =>
    intro hnd a
    rcases List.nodup_cons.mp hnd with ⟨hb, hl⟩
    by_cases he : b = a
    · subst he
      rw [List.filter_cons_of_pos (by simp), ih hl b, if_neg hb,
        if_pos (List.mem_cons_self b l)]
    · rw [List.filter_cons_of_neg (by simp [he]), ih hl a]
      by_cases hal : a ∈ l
      · rw [if_pos hal, if_pos (List.mem_cons_of_mem _ hal)]
      · rw [if_neg hal, if_neg ?_]
        intro hmem
        rcases List.mem_cons.mp hmem with h1 | h2
        · exact he h1.symm
        · exact hal h2

theorem defaultSupportChannels_nodup : defaultSupportChannels.Nodup := by decide

theorem joinFilter_names_cons (c : Channel) (rest : List Channel) :
    (joinFilter (c :: rest)).1 =
      (if c.isMember = false ∧ (hasPrefix c.name ("_") = true ∨ c.name ∈ defaultSupportChannels)
        then [c.name] else []) ++ (joinFilter rest).1 := by
  cases hm : c.isMember with
  | true => simp [joinFilter, hm]
  | false =>
    cases hp : hasPrefix c.name ("_") with
    | true => simp [joinFilter, hm, hp]
    | false =>
      rw [show (joinFilter (c :: rest)).1
          = ((defaultSupportChannels.filter (fun d => d = c.name)).map (fun _ => c.name)
            ++ (joinFilter rest).1) by simp [joinFilter, hm, hp]]
      rw [filter_eq_of_nodup defaultSupportChannels defaultSupportChannels_nodup c.name]
      by_cases hd : c.name ∈ defaultSupportChannels
      · simp [hd, hp]
      · simp [hd, hp]

theorem leaveFilter_names_cons (c : Channel) (rest : List Channel) :
    (leaveFilter (c :: rest)).1 =
      (if c.isMember = true ∧ hasPrefix c.name ("_") = true ∧ c.isExtShared = false
        then [c.name] else []) ++ (leaveFilter rest).1 := by
  cases hm : c.isMember <;> cases hp : hasPrefix c.name ("_") <;>
    cases hx : c.isExtShared <;> simp [leaveFilter, hm, hp, hx]

theorem leaveFilter_cannot_cons (c : Channel) (rest : List Channel) :
    (leaveFilter (c :: rest)).2.1 =
      (if c.isMember = true ∧ hasPrefix c.name ("_") = true ∧ c.isExtShared = true
        then [c.name] else []) ++ (leaveFilter rest).2.1 := by
  cases hm : c.isMember <;> cases hp : hasPrefix c.name ("_") <;>
    cases hx : c.isExtShared <;> simp [leaveFilter, hm, hp, hx]

theorem mem_joinFilter_names {L : List Channel} {n : String} :
    n ∈ (joinFilter L).1 ↔ ∃ c, c ∈ L ∧ c.name = n ∧ c.isMember = false ∧
      (hasPrefix c.name ("_") = true ∨ c.name ∈ defaultSupportChannels) := by
  induction L with
  | nil => simp [joinFilter]
  | cons c rest ih =>
    rw [joinFilter_names_cons, List.mem_append, ih]
    constructor
    · rintro (h1 | ⟨c', hc', hn, hm, hp⟩)
      · split_ifs at h1 with hcond
        · rcases List.mem_singleton.mp h1 with rfl
          exact ⟨c, List.mem_cons_self c rest, rfl, hcond.1, hcond.2⟩
        · cases h1
      · exact ⟨c', List.mem_cons_of_mem c hc', hn, hm, hp⟩
    · rintro ⟨c', hc', hn, hm, hp⟩
      rcases List.mem_cons.mp hc' with rfl | hmem
      · left; rw [if_pos ⟨hm, hp⟩]; exact hn ▸ List.mem_singleton_self c'.name
      · right; exact ⟨c', hmem, hn, hm, hp⟩

theorem mem_leaveFilter_names {L : List Channel} {n : String} :
    n ∈ (leaveFilter L).1 ↔ ∃ c, c ∈ L ∧ c.name = n ∧ c.isMember = true ∧
      hasPrefix c.name ("_") = true ∧ c.isExtShared = false := by
  induction L with
  | nil => simp [leaveFilter]
  | cons c rest ih =>
    rw [leaveFilter_names_cons, List.mem_append, ih]
    constructor
    · rintro (h1 | ⟨c', hc', hn, hm, hp, hx⟩)
      · split_ifs at h1 with hcond
        · rcases List.mem_singleton.mp h1 with rfl
          exact ⟨c, List.mem_cons_self c rest, rfl, hcond.1, hcond.2.1, hcond.2.2⟩
        · cases h1
      · exact ⟨c', List.mem_cons_of_mem c hc', hn, hm, hp, hx⟩
    · rintro ⟨c', hc', hn, hm, hp, hx⟩
      rcases List.mem_cons.mp hc' with rfl | hmem
      · left; rw [if_pos ⟨hm, hp, hx⟩]; exact hn ▸ List.mem_singleton_self c'.name
      · right; exact ⟨c', hmem, hn, hm, hp, hx⟩

theorem mem_leaveFilter_cannot {L : List Channel} {n : String} :
    n ∈ (leaveFilter L).2.1 ↔ ∃ c, c ∈ L ∧ c.name = n ∧ c.isMember = true ∧
      hasPrefix c.name ("_") = true ∧ c.isExtShared = true := by
  induction L with
  | nil => simp [leaveFilter]
  | cons c rest ih =>
    rw [leaveFilter_cannot_cons, List.mem_append, ih]
    constructor
    · rintro (h1 | ⟨c', hc', hn, hm, hp, hx⟩)
      · split_ifs at h1 with hcond
        · rcases List.mem_singleton.mp h1 with rfl
          exact ⟨c, List.mem_cons_self c rest, rfl, hcond.1, hcond.2.1, hcond.2.2⟩
        · cases h1
      · exact ⟨c', List.mem_cons_of_mem c hc', hn, hm, hp, hx⟩
    · rintro ⟨c', hc', hn, hm, hp, hx⟩
      rcases List.mem_cons.mp hc' with rfl | hmem
      · left; rw [if_pos ⟨hm, hp, hx⟩]; exact hn ▸ List.mem_singleton_self c'.name
      · right; exact ⟨c', hmem, hn, hm, hp, hx⟩

theorem joinFilter_names_sublist (L : List Channel) :
    List.Sublist (joinFilter L).1 (L.map (fun c => c.name)) := by
  induction L with
  | nil => simp [joinFilter]
  | cons c rest ih =>
    rw [joinFilter_names_cons, List.map_cons]
    split_ifs
    · exact List.Sublist.cons₂ c.name ih
    · exact List.Sublist.cons c.name ih

theorem leaveFilter_names_sublist (L : List Channel) :
    List.Sublist (leaveFilter L).1 (L.map (fun c => c.name)) := by
  induction L with
  | nil => simp [leaveFilter]
  | cons c rest ih =>
    rw [leaveFilter_names_cons, List.map_cons]
    split_ifs
    · exact List.Sublist.cons₂ c.name ih
    · exact List.Sublist.cons c.name ih

/-- Scenario input with one customer channel, one default channel and one
unrelated channel, none of which the user is a member of. -/
def sampleJoinList : List Channel :=
  [⟨"C1ID", "_acme", false, false⟩, ⟨"C2ID", "frame", false, false⟩,
    ⟨"C3ID", "random", false, false⟩]

/-- Scenario input with one externally shared and one regular underscore
member channel, with distinct names. -/
def sampleLeaveList : List Channel :=
  [⟨"C1ID", "_acme", true, true⟩, ⟨"C2ID", "_bcme", true, false⟩]

/-- Input with two distinct member channels sharing the name of an
underscore channel, one externally shared and one not. -/
def dupLeaveList : List Channel :=
  [⟨"id1", "_a", true, true⟩, ⟨"id2", "_a", true, false⟩]

/-- Input with two distinct non-member channels sharing one underscore
name. -/
def dupJoinList : List Channel :=
  [⟨"i1", "_a", false, false⟩, ⟨"i2", "_a", false, false⟩]

/-- C1: in Join mode every selected name comes from a channel the user is
not a member of, and such a channel either has the reserved underscore name
or exactly matches an entry of the default support set; conversely every
non-member underscore channel is selected unconditionally, whatever its
other flags. -/
theorem C1_join_selection_policy (channels : List Channel) :
    (∀ n ∈ (selector channels RunMode.Join).orderedNames,
      ∃ c, c ∈ channels ∧ c.name = n ∧ c.isMember = false ∧
        (hasPrefix c.name ("_") = true ∨ c.name ∈ defaultSupportChannels))
    ∧ (∀ c, c ∈ channels → c.isMember = false → hasPrefix c.name ("_") = true →
        c.name ∈ (selector channels RunMode.Join).orderedNames) := by
  constructor
  · intro n hn
    exact mem_joinFilter_names.mp (mem_sortStrings.mp hn)
  · intro c hc hm hp
    exact mem_sortStrings.mpr (mem_joinFilter_names.mpr ⟨c, hc, rfl, hm, Or.inl hp⟩)

/-- Witness instantiating C1 on the scenario input. -/
theorem C1_join_selection_policy_witness :
    (∃ c, c ∈ sampleJoinList ∧ c.name = "_acme" ∧ c.isMember = false ∧
      (hasPrefix c.name ("_") = true ∨ c.name ∈ defaultSupportChannels))
    ∧ "_acme" ∈ (selector sampleJoinList RunMode.Join).orderedNames :=
  ⟨(C1_join_selection_policy sampleJoinList).1 ("_acme") (by decide),
    (C1_join_selection_policy sampleJoinList).2 ⟨"C1ID", "_acme", false, false⟩
      (by decide) (by decide) (by decide)⟩

/-- C2 counterexample: with two member channels both named with the same
underscore name, one externally shared and one not, the shared channel's
name lands in unreachable but also appears in orderedNames, so it is not
placed in unreachable INSTEAD of orderedNames. -/
theorem C2_counterexample :
    ¬ (∀ c, c ∈ dupLeaveList → c.isMember = true → hasPrefix c.name ("_") = true →
        c.isExtShared = true →
        c.name ∈ (selector dupLeaveList RunMode.Leave).unreachable ∧
        c.name ∉ (selector dupLeaveList RunMode.Leave).orderedNames) := by
  intro h
  exact ((h ⟨"id1", "_a", true, true⟩ (by decide) (by decide) (by decide) (by decide)).2)
    (by decide)

/-- C2 amended: in Leave mode every name in orderedNames comes from a
member channel with the underscore name and not externally shared; every
externally shared underscore member channel has its name recorded in
unreachable; and, provided the input channel names are pairwise distinct,
that name moreover does not appear in orderedNames. -/
theorem C2_leave_selection_policy (channels : List Channel) :
    (∀ n ∈ (selector channels RunMode.Leave).orderedNames,
      ∃ c, c ∈ channels ∧ c.name = n ∧ c.isMember = true ∧
        hasPrefix c.name ("_") = true ∧ c.isExtShared = false)
    ∧ (∀ c, c ∈ channels → c.isMember = true → hasPrefix c.name ("_") = true →
        c.isExtShared = true →
        c.name ∈ (selector channels RunMode.Leave).unreachable)
    ∧ ((channels.map (fun c => c.name)).Nodup →
        ∀ c, c ∈ channels → c.isMember = true → hasPrefix c.name ("_") = true →
          c.isExtShared = true →
          c.name ∉ (selector channels RunMode.Leave).orderedNames) := by
  refine ⟨?_, ?_, ?_⟩
  · intro n hn
    exact mem_leaveFilter_names.mp (mem_sortStrings.mp hn)
  · intro c hc hm hp hx
    exact mem_leaveFilter_cannot.mpr ⟨c, hc, rfl, hm, hp, hx⟩
  · intro hnd c hc hm hp hx hmem
    rcases mem_leaveFilter_names.mp (mem_sortStrings.mp hmem) with ⟨c', hc', hn, _, _, hx'⟩
    have : c' = c := List.inj_on_of_nodup_map hnd hc' hc hn
    rw [this] at hx'
    rw [hx] at hx'
    cases hx'

/-- Witness instantiating C2 on an input with distinct names. -/
theorem C2_leave_selection_policy_witness :
    (∃ c, c ∈ sampleLeaveList ∧ c.name = "_bcme" ∧ c.isMember = true ∧
      hasPrefix c.name ("_") = true ∧ c.isExtShared = false)
    ∧ "_acme" ∈ (selector sampleLeaveList RunMode.Leave).unreachable
    ∧ "_acme" ∉ (selector sampleLeaveList RunMode.Leave).orderedNames :=
  ⟨(C2_leave_selection_policy sampleLeaveList).1 ("_bcme") (by decide),
    (C2_leave_selection_policy sampleLeaveList).2.1 ⟨"C1ID", "_acme", true, true⟩
      (by decide) (by decide) (by decide) (by decide),
    (C2_leave_selection_policy sampleLeaveList).2.2 (by decide)
      ⟨"C1ID", "_acme", true, true⟩ (by decide) (by decide) (by decide) (by decide)⟩

/-- C3 counterexample: when the input list carries two channels with the
same name, orderedNames keeps the duplicate, so the claim fails for
arbitrary input channel lists. -/
theorem C3_counterexample :
    ¬ (List.Sorted (fun a b : String => a ≤ b) (selector dupJoinList RunMode.Join).orderedNames
      ∧ (selector dupJoinList RunMode.Join).orderedNames.Nodup
      ∧ ∀ n ∈ (selector dupJoinList RunMode.Join).unreachable,
          n ∉ (selector dupJoinList RunMode.Join).orderedNames) :=
  fun h => absurd h.2.1 (by decide)

/-- C3 amended: orderedNames is always sorted ascending, in either mode and
for any input ordering; when the input channel names are pairwise distinct
it is moreover duplicate-free and disjoint from unreachable. -/
theorem C3_sorted_nodup_disjoint (channels : List Channel) (mode : RunMode) :
    List.Sorted (fun a b : String => a ≤ b) (selector channels mode).orderedNames
    ∧ ((channels.map (fun c => c.name)).Nodup →
        (selector channels mode).orderedNames.Nodup
        ∧ ∀ n ∈ (selector channels mode).unreachable,
            n ∉ (selector channels mode).orderedNames) := by
  cases mode with
  | Join =>
    refine ⟨sortStrings_sorted _, fun hnd => ⟨?_, ?_⟩⟩
    · exact sortStrings_nodup (List.Nodup.sublist (joinFilter_names_sublist channels) hnd)
    · intro n hn
      cases hn
  | Leave =>
    refine ⟨sortStrings_sorted _, fun hnd => ⟨?_, ?_⟩⟩
    · exact sortStrings_nodup (List.Nodup.sublist (leaveFilter_names_sublist channels) hnd)
    · intro n hn hmem
      rcases mem_leaveFilter_cannot.mp hn with ⟨c, hc, hcn, _, _, hx⟩
      rcases mem_leaveFilter_names.mp (mem_sortStrings.mp hmem) with ⟨c', hc', hcn', _, _, hx'⟩
      have : c = c' := List.inj_on_of_nodup_map hnd hc hc' (hcn.trans hcn'.symm)
      rw [this] at hx
      rw [hx'] at hx
      cases hx

/-- Witness instantiating C3 in Leave mode on an input with distinct
names. -/
theorem C3_sorted_nodup_disjoint_witness :
    ((sampleLeaveList.map (fun c => c.name)).Nodup) ∧
      ((selector sampleLeaveList RunMode.Leave).orderedNames.Nodup
        ∧ ∀ n ∈ (selector sampleLeaveList RunMode.Leave).unreachable,
            n ∉ (selector sampleLeaveList RunMode.Leave).orderedNames) :=
  ⟨by decide, (C3_sorted_nodup_disjoint sampleLeaveList RunMode.Leave).2 (by decide)⟩

/-- Observable steps of a run of either command, in program order: progress
output, directory calls with their success flag, and the settling delay.
The success flag on a call event records what the oracle answered for that
invocation. -/
inductive Event where
  | printNothingToDo : Event
  | printPlan : List String → Event
  | printDryNotice : Event
  | printAdvisory : List String → Event
  | joinCall : String → Bool → Event
  | leaveCall : String → String → Bool → Event
  | sleep : Nat → Event
  | markReadCall : String → String → String → Bool → Event
  | printDone : Event
deriving DecidableEq, Repr

/-- The error a run surfaces, tagged with the channel whose directory call
failed. -/
inductive RunError where
  | joinFailed : String → RunError
  | leaveFailed : String → RunError
  | markFailed : String → RunError
deriving DecidableEq, Repr

/-- The join loop of src/main.go lines 145-150: call JoinChannelContext per
name in order, returning on the first failure. -/
def joinLoop (joinOk : String → Bool) : List String → List Event × Option RunError
  | [] => ([], none)
  | n :: rest =>
    if joinOk n then
      let acc := joinLoop joinOk rest
      (Event.joinCall n true :: acc.1, acc.2)
    else ([Event.joinCall n false], some (RunError.joinFailed n))

/-- The read-marking loop of src/main.go lines 158-164: look up the id of
each name, call SetChannelReadMarkContext with the shared timestamp,
returning on the first failure. -/
def markLoop (markOk : String → Bool) (ids : List (String × String)) (ts : String) :
    List String → List Event × Option RunError
  | [] => ([], none)
  | n :: rest =>
    if markOk (mapLookup ids n) then
      let acc := markLoop markOk ids ts rest
      (Event.markReadCall n (mapLookup ids n) ts true :: acc.1, acc.2)
    else ([Event.markReadCall n (mapLookup ids n) ts false],
      some (RunError.markFailed n))

/-- The leave loop of src/main.go lines 236-242: look up the id of each
name, call LeaveChannelContext, returning on the first failure. -/
def leaveLoop (leaveOk : String → Bool) (ids : List (String × String)) :
    List String → List Event × Option RunError
  | [] => ([], none)
  | n :: rest =>
    if leaveOk (mapLookup ids n) then
      let acc := leaveLoop leaveOk ids rest
      (Event.leaveCall n (mapLookup ids n) true :: acc.1, acc.2)
    else ([Event.leaveCall n (mapLookup ids n) false],
      some (RunError.leaveFailed n))

/-- The joinSupport driver after the channel listing, src/main.go lines
100-169: filter, report nothing to do on an empty selection, sort, print
the plan, stop after the plan on a dry run; otherwise join every channel in
order, then sleep five time units, compute one timestamp and mark every
joined channel as read. Oracles answer each directory call; nowAfterSleep
is the clock value read after the settling delay. -/
def joinDriver (dry : Bool) (joinOk markOk : String → Bool) (nowAfterSleep : Nat)
    (channels : List Channel) : List Event × Option RunError :=
  let flt := joinFilter channels
  if flt.1.isEmpty then ([Event.printNothingToDo], none)
  else
    let sorted := sortStrings flt.1
    if dry then ([Event.printPlan sorted, Event.printDryNotice], none)
    else
      let jl := joinLoop joinOk sorted
      match jl.2 with
      | some e => (Event.printPlan sorted :: jl.1, some e)
      | none =>
        let ts := toString nowAfterSleep
        let ml := markLoop markOk flt.2 ts sorted
        match ml.2 with
        | some e =>
          (Event.printPlan sorted :: jl.1 ++ Event.sleep 5 :: ml.1, some e)
        | none =>
          (Event.printPlan sorted :: jl.1 ++ Event.sleep 5 :: ml.1
            ++ [Event.printDone], none)

/-- The leaveSupport driver after the channel listing, src/main.go lines
190-254: filter, report nothing to do on an empty selection, sort, print
the plan; on a dry run print the cannot-leave advisory and stop; otherwise
leave every channel in order and, if all leaves succeed, print the
cannot-leave advisory. -/
def leaveDriver (dry : Bool) (leaveOk : String → Bool) (channels : List Channel) :
    List Event × Option RunError :=
  let flt := leaveFilter channels
  if flt.1.isEmpty then ([Event.printNothingToDo], none)
  else
    let sorted := sortStrings flt.1
    if dry then
      ([Event.printPlan sorted, Event.printAdvisory flt.2.1, Event.printDryNotice], none)
    else
      let ll := leaveLoop leaveOk flt.2.2 sorted
      match ll.2 with
      | some e => (Event.printPlan sorted :: ll.1, some e)
      | none =>
        (Event.printPlan sorted :: ll.1
          ++ [Event.printAdvisory flt.2.1, Event.printDone], none)

/-- One driver indexed by the run mode. -/
def runDriver (mode : RunMode) (dry : Bool) (joinOk leaveOk markOk : String → Bool)
    (nowAfterSleep : Nat) (channels : List Channel) : List Event × Option RunError :=
  match mode with
  | RunMode.Join => joinDriver dry joinOk markOk nowAfterSleep channels
  | RunMode.Leave => leaveDriver dry leaveOk channels

/-- Whether an event is a mutating directory call. -/
def Event.isMutating : Event → Bool
  | Event.joinCall _ _ => true
  | Event.leaveCall _ _ _ => true
  | Event.markReadCall _ _ _ _ => true
  | _ => false

/-- The channel name of a join call event. -/
def Event.joinName : Event → Option String
  | Event.joinCall n _ => some n
  | _ => none

/-- The channel name of a leave call event. -/
def Event.leaveName : Event → Option String
  | Event.leaveCall n _ _ => some n
  | _ => none

/-- The channel name of a mark-read call event. -/
def Event.markName : Event → Option String
  | Event.markReadCall n _ _ _ => some n
  | _ => none

/-- Names of join calls issued in a trace, in order. -/
def joinNamesOf (trace : List Event) : List String :=
  trace.filterMap Event.joinName

/-- Names of leave calls issued in a trace, in order. -/
def leaveNamesOf (trace : List Event) : List String :=
  trace.filterMap Event.leaveName

/-- Names of mark-read calls issued in a trace, in order. -/
def markNamesOf (trace : List Event) : List String :=
  trace.filterMap Event.markName

theorem joinLoop_all_ok {joinOk : String → Bool} {l : List String}
    (h : ∀ n ∈ l, joinOk n = true) :
    joinLoop joinOk l = (l.map (fun n => Event.joinCall n true), none) := by
  induction l with
  | nil => rfl
  | cons n rest ih =>
    have hn := h n (List.mem_cons_self n rest)
    have hrest := ih (fun m hm => h m (List.mem_cons_of_mem n hm))
    simp [joinLoop, hn, hrest]

theorem joinLoop_none_iff {joinOk : String → Bool} {l : List String} :
    (joinLoop joinOk l).2 = none ↔ ∀ n ∈ l, joinOk n = true := by
  induction l with
  | nil => simp [joinLoop]
  | cons n rest ih =>
    by_cases hn : joinOk n = true
    · rw [show (joinLoop joinOk (n :: rest)).2 = (joinLoop joinOk rest).2 by
        simp [joinLoop, hn]]
      rw [ih]
      constructor
      · intro h m hm
        rcases List.mem_cons.mp hm with rfl | hmem
        · exact hn
        · exact h m hmem
      · intro h m hm; exact h m (List.mem_cons_of_mem n hm)
    · rw [show (joinLoop joinOk (n :: rest)).2 = some (RunError.joinFailed n) by
        simp [joinLoop, hn]]
      constructor
      · intro h; cases h
      · intro h; exact absurd (h n (List.mem_cons_self n rest)) hn

theorem joinLoop_fail {joinOk : String → Bool} {pre : List String} {bad : String}
    (post : List String) (hpre : ∀ n ∈ pre, joinOk n = true) (hbad : joinOk bad = false) :
    joinLoop joinOk (pre ++ bad :: post) =
      (pre.map (fun n => Event.joinCall n true) ++ [Event.joinCall bad false],
        some (RunError.joinFailed bad)) := by
  induction pre with
  | nil => simp [joinLoop, hbad]
  | cons n rest ih =>
    have hn := hpre n (List.mem_cons_self n rest)
    have hrest := ih (fun m hm => hpre m (List.mem_cons_of_mem n hm))
    simp [joinLoop, hn, hrest]

theorem markLoop_all_ok {markOk : String → Bool} {ids : List (String × String)}
    (ts : String) {l : List String} (h : ∀ n ∈ l, markOk (mapLookup ids n) = true) :
    markLoop markOk ids ts l =
      (l.map (fun n => Event.markReadCall n (mapLookup ids n) ts true), none) := by
  induction l with
  | nil => rfl
  | cons n rest ih =>
    have hn := h n (List.mem_cons_self n rest)
    have hrest := ih (fun m hm => h m (List.mem_cons_of_mem n hm))
    simp [markLoop, hn, hrest]

theorem markLoop_none_iff {markOk : String → Bool} {ids : List (String × String)}
    {ts : String} {l : List String} :
    (markLoop markOk ids ts l).2 = none ↔ ∀ n ∈ l, markOk (mapLookup ids n) = true := by
  induction l with
  | nil => simp [markLoop]
  | cons n rest ih =>
    by_cases hn : markOk (mapLookup ids n) = true
    · rw [show (markLoop markOk ids ts (n :: rest)).2 = (markLoop markOk ids ts rest).2 by
        simp [markLoop, hn]]
      rw [ih]
      constructor
      · intro h m hm
        rcases List.mem_cons.mp hm with rfl | hmem
        · exact hn
        · exact h m hmem
      · intro h m hm; exact h m (List.mem_cons_of_mem n hm)
    · rw [show (markLoop markOk ids ts (n :: rest)).2 = some (RunError.markFailed n) by
        simp [markLoop, hn]]
      constructor
      · intro h; cases h
      · intro h; exact absurd (h n (List.mem_cons_self n rest)) hn

theorem markLoop_fail {markOk : String → Bool} {ids : List (String × String)}
    {ts : String} {pre : List String} {bad : String} (post : List String)
    (hpre : ∀ n ∈ pre, markOk (mapLookup ids n) = true)
    (hbad : markOk (mapLookup ids bad) = false) :
    markLoop markOk ids ts (pre ++ bad :: post) =
      (pre.map (fun n => Event.markReadCall n (mapLookup ids n) ts true)
          ++ [Event.markReadCall bad (mapLookup ids bad) ts false],
        some (RunError.markFailed bad)) := by
  induction pre with
  | nil => simp [markLoop, hbad]
  | cons n rest ih =>
    have hn := hpre n (List.mem_cons_self n rest)
    have hrest := ih (fun m hm => hpre m (List.mem_cons_of_mem n hm))
    simp [markLoop, hn, hrest]

theorem leaveLoop_all_ok {leaveOk : String → Bool} {ids : List (String × String)}
    {l : List String} (h : ∀ n ∈ l, leaveOk (mapLookup ids n) = true) :
    leaveLoop leaveOk ids l =
      (l.map (fun n => Event.leaveCall n (mapLookup ids n) true), none) := by
  induction l with
  | nil => rfl
  | cons n rest ih =>
    have hn := h n (List.mem_cons_self n rest)
    have hrest := ih (fun m hm => h m (List.mem_cons_of_mem n hm))
    simp [leaveLoop, hn, hrest]

theorem leaveLoop_none_iff {leaveOk : String → Bool} {ids : List (String × String)}
    {l : List String} :
    (leaveLoop leaveOk ids l).2 = none ↔ ∀ n ∈ l, leaveOk (mapLookup ids n) = true := by
  induction l with
  | nil => simp [leaveLoop]
  | cons n rest ih =>
    by_cases hn : leaveOk (mapLookup ids n) = true
    · rw [show (leaveLoop leaveOk ids (n :: rest)).2 = (leaveLoop leaveOk ids rest).2 by
        simp [leaveLoop, hn]]
      rw [ih]
      constructor
      · intro h m hm
        rcases List.mem_cons.mp hm with rfl | hmem
        · exact hn
        · exact h m hmem
      · intro h m hm; exact h m (List.mem_cons_of_mem n hm)
    · rw [show (leaveLoop leaveOk ids (n :: rest)).2 = some (RunError.leaveFailed n) by
        simp [leaveLoop, hn]]
      constructor
      · intro h; cases h
      · intro h; exact absurd (h n (List.mem_cons_self n rest)) hn

theorem leaveLoop_fail {leaveOk : String → Bool} {ids : List (String × String)}
    {pre : List String} {bad : String} (post : List String)
    (hpre : ∀ n ∈ pre, leaveOk (mapLookup ids n) = true)
    (hbad : leaveOk (mapLookup ids bad) = false) :
    leaveLoop leaveOk ids (pre ++ bad :: post) =
      (pre.map (fun n => Event.leaveCall n (mapLookup ids n) true)
          ++ [Event.leaveCall bad (mapLookup ids bad) false],
        some (RunError.leaveFailed bad)) := by
  induction pre with
  | nil => simp [leaveLoop, hbad]
  | cons n rest ih =>
    have hn := hpre n (List.mem_cons_self n rest)
    have hrest := ih (fun m hm => hpre m (List.mem_cons_of_mem n hm))
    simp [leaveLoop, hn, hrest]

theorem filterMap_const_some {α : Type} (l : List α) :
    List.filterMap (fun a : α => some a) l = l := by
  induction l with
  | nil => rfl
  | cons a rest ih => simp [List.filterMap_cons, ih]

theorem filterMap_const_none {α β : Type} (l : List α) :
    List.filterMap (fun _ : α => (none : Option β)) l = [] := by
  induction l with
  | nil => rfl
  | cons a rest ih => simp [List.filterMap_cons, ih]

theorem joinFilter_isEmpty_iff {channels : List Channel} :
    (joinFilter channels).1.isEmpty = true ↔
      (selector channels RunMode.Join).orderedNames = [] := by
  rw [List.isEmpty_iff]
  show _ ↔ sortStrings (joinFilter channels).1 = []
  rw [sortStrings_eq_nil_iff]

theorem leaveFilter_isEmpty_iff {channels : List Channel} :
    (leaveFilter channels).1.isEmpty = true ↔
      (selector channels RunMode.Leave).orderedNames = [] := by
  rw [List.isEmpty_iff]
  show _ ↔ sortStrings (leaveFilter channels).1 = []
  rw [sortStrings_eq_nil_iff]

/-- C6: when the selection after filtering is empty, each driver reports
nothing to do and terminates successfully, issuing no directory calls in
either mode, live or dry. -/
theorem C6_empty_selection (mode : RunMode) (dry : Bool)
    (joinOk leaveOk markOk : String → Bool) (now : Nat) (channels : List Channel)
    (h : (selector channels mode).orderedNames = []) :
    runDriver mode dry joinOk leaveOk markOk now channels
      = ([Event.printNothingToDo], none) := by
  cases mode with
  | Join =>
    have he : (joinFilter channels).1.isEmpty = true := joinFilter_isEmpty_iff.mpr h
    simp [runDriver, joinDriver, he]
  | Leave =>
    have he : (leaveFilter channels).1.isEmpty = true := leaveFilter_isEmpty_iff.mpr h
    simp [runDriver, leaveDriver, he]

/-- Witness instantiating C6 on the empty channel list in Join mode. -/
theorem C6_empty_selection_witness :
    runDriver RunMode.Join false (fun _ => true) (fun _ => true) (fun _ => true) 0 []
      = ([Event.printNothingToDo], none) :=
  C6_empty_selection RunMode.Join false (fun _ => true) (fun _ => true) (fun _ => true)
    0 [] (by decide)

/-- C4: a dry run of either mode issues no join, leave or mark-read call;
a live run that completes without error issues the calls of its mode
exactly as the sorted selected-name list, in that order, and no call of the
other mode. -/
theorem C4_dry_live_calls (mode : RunMode) (joinOk leaveOk markOk : String → Bool)
    (now : Nat) (channels : List Channel) :
    (runDriver mode true joinOk leaveOk markOk now channels).1.filter Event.isMutating = []
    ∧ ((runDriver mode false joinOk leaveOk markOk now channels).2 = none →
        joinNamesOf (runDriver mode false joinOk leaveOk markOk now channels).1
            = (if mode = RunMode.Join then (selector channels mode).orderedNames else [])
        ∧ leaveNamesOf (runDriver mode false joinOk leaveOk markOk now channels).1
            = (if mode = RunMode.Leave then (selector channels mode).orderedNames else [])
        ∧ markNamesOf (runDriver mode false joinOk leaveOk markOk now channels).1
            = (if mode = RunMode.Join then (selector channels mode).orderedNames else [])) := by
  cases mode with
  | Join =>
    constructor
    · by_cases h : (joinFilter channels).1.isEmpty = true
      · simp [runDriver, joinDriver, h, Event.isMutating]
      · simp [runDriver, joinDriver, h, Event.isMutating]
    · intro h2
      by_cases h : (joinFilter channels).1.isEmpty = true
      · have hnil := joinFilter_isEmpty_iff.mp h
        rw [hnil]
        simp [runDriver, joinDriver, h, joinNamesOf, leaveNamesOf, markNamesOf,
          Event.joinName, Event.leaveName, Event.markName]
      · cases hjl2 : (joinLoop joinOk (sortStrings (joinFilter channels).1)).2 with
        | some e => simp [runDriver, joinDriver, h, hjl2] at h2
        | none =>
          have hfull := joinLoop_all_ok (joinLoop_none_iff.mp hjl2)
          cases hml2 : (markLoop markOk (joinFilter channels).2 (toString now)
              (sortStrings (joinFilter channels).1)).2 with
          | some e => simp [runDriver, joinDriver, h, hfull, hml2] at h2
          | none =>
            have hmfull := markLoop_all_ok (toString now) (markLoop_none_iff.mp hml2)
            refine ⟨?_, ?_, ?_⟩ <;>
              simp [runDriver, joinDriver, h, hfull, hmfull, selector,
                joinNamesOf, leaveNamesOf, markNamesOf,
                List.filterMap_cons, List.filterMap_append, Function.comp_def,
                Event.joinName, Event.leaveName, Event.markName,
                filterMap_const_some, filterMap_const_none]
  | Leave =>
    constructor
    · by_cases h : (leaveFilter channels).1.isEmpty = true
      · simp [runDriver, leaveDriver, h, Event.isMutating]
      · simp [runDriver, leaveDriver, h, Event.isMutating]
    · intro h2
      by_cases h : (leaveFilter channels).1.isEmpty = true
      · have hnil := leaveFilter_isEmpty_iff.mp h
        rw [hnil]
        simp [runDriver, leaveDriver, h, joinNamesOf, leaveNamesOf, markNamesOf,
          Event.joinName, Event.leaveName, Event.markName]
      · cases hll2 : (leaveLoop leaveOk (leaveFilter channels).2.2
            (sortStrings (leaveFilter channels).1)).2 with
        | some e => simp [runDriver, leaveDriver, h, hll2] at h2
        | none =>
          have hfull := leaveLoop_all_ok (leaveLoop_none_iff.mp hll2)
          refine ⟨?_, ?_, ?_⟩ <;>
            simp [runDriver, leaveDriver, h, hfull, selector,
              joinNamesOf, leaveNamesOf, markNamesOf,
              List.filterMap_cons, List.filterMap_append, Function.comp_def,
              Event.joinName, Event.leaveName, Event.markName,
              filterMap_const_some, filterMap_const_none]

/-- Witness instantiating C4 on the scenario input in Join mode with
all-success oracles. -/
theorem C4_dry_live_calls_witness :
    joinNamesOf (runDriver RunMode.Join false (fun _ => true) (fun _ => true)
        (fun _ => true) 7 sampleJoinList).1
      = (if RunMode.Join = RunMode.Join
          then (selector sampleJoinList RunMode.Join).orderedNames else []) :=
  ((C4_dry_live_calls RunMode.Join (fun _ => true) (fun _ => true) (fun _ => true)
    7 sampleJoinList).2 (by decide)).1

/-- Input whose only channel is an externally shared underscore member
channel: the Leave selection is empty while unreachable is not. -/
def sharedOnlyList : List Channel := [⟨"C1ID", "_acme", true, true⟩]

/-- C5 counterexample: on an input whose Leave selection is empty but whose
unreachable list is not, both the dry and the live path print only the
nothing-to-do message and never print the advisory list. -/
theorem C5_counterexample :
    (selector sharedOnlyList RunMode.Leave).unreachable = ["_acme"]
    ∧ (leaveDriver true (fun _ => true) sharedOnlyList).1 = [Event.printNothingToDo]
    ∧ (leaveDriver false (fun _ => true) sharedOnlyList).1 = [Event.printNothingToDo]
    ∧ Event.printAdvisory ["_acme"] ∉ (leaveDriver true (fun _ => true) sharedOnlyList).1
    ∧ Event.printAdvisory ["_acme"] ∉ (leaveDriver false (fun _ => true) sharedOnlyList).1 := by
  refine ⟨by decide, by decide, by decide, by decide, by decide⟩

/-- C5 amended: in every Leave run whose selection is non-empty, the
unreachable advisory list is printed after the main action, both on the dry
path and on the live path when every leave call succeeds; when the
selection is empty the run prints the nothing-to-do message and no
advisory. -/
theorem C5_leave_advisory (leaveOk : String → Bool) (channels : List Channel)
    (hne : (selector channels RunMode.Leave).orderedNames ≠ []) :
    ((leaveDriver true leaveOk channels).1
        = [Event.printPlan (sortStrings (leaveFilter channels).1),
            Event.printAdvisory (leaveFilter channels).2.1, Event.printDryNotice])
    ∧ ((leaveDriver false leaveOk channels).2 = none →
        (leaveDriver false leaveOk channels).1
          = Event.printPlan (sortStrings (leaveFilter channels).1)
            :: (sortStrings (leaveFilter channels).1).map
                (fun n => Event.leaveCall n (mapLookup (leaveFilter channels).2.2 n) true)
            ++ [Event.printAdvisory (leaveFilter channels).2.1, Event.printDone]) := by
  have h : ¬ (leaveFilter channels).1.isEmpty = true := by
    intro hemp
    exact hne (leaveFilter_isEmpty_iff.mp hemp)
  constructor
  · simp [leaveDriver, h]
  · intro h2
    cases hll2 : (leaveLoop leaveOk (leaveFilter channels).2.2
        (sortStrings (leaveFilter channels).1)).2 with
    | some e => simp [leaveDriver, h, hll2] at h2
    | none =>
      have hfull := leaveLoop_all_ok (leaveLoop_none_iff.mp hll2)
      simp [leaveDriver, h, hfull]

/-- Witness instantiating the amended C5 on an input with one reachable and
one unreachable leave channel. -/
theorem C5_leave_advisory_witness :
    ((leaveDriver true (fun _ => true) sampleLeaveList).1
        = [Event.printPlan (sortStrings (leaveFilter sampleLeaveList).1),
            Event.printAdvisory (leaveFilter sampleLeaveList).2.1, Event.printDryNotice])
    ∧ ((leaveDriver false (fun _ => true) sampleLeaveList).2 = none →
        (leaveDriver false (fun _ => true) sampleLeaveList).1
          = Event.printPlan (sortStrings (leaveFilter sampleLeaveList).1)
            :: (sortStrings (leaveFilter sampleLeaveList).1).map
                (fun n => Event.leaveCall n
                  (mapLookup (leaveFilter sampleLeaveList).2.2 n) true)
            ++ [Event.printAdvisory (leaveFilter sampleLeaveList).2.1, Event.printDone]) :=
  C5_leave_advisory (fun _ => true) sampleLeaveList (by decide)

theorem sortStrings_ne_nil_of_eq_append {l : List String} {pre : List String}
    {bad : String} {post : List String} (hs : sortStrings l = pre ++ bad :: post) :
    ¬ l.isEmpty = true := by
  intro hemp
  have hnil : l = [] := List.isEmpty_iff.mp hemp
  rw [hnil] at hs
  have := congrArg List.length hs
  simp [sortStrings] at this
  omega

/-- C7: in a live run, a failing join, mark-read or leave call aborts the
loop at once: the trace ends with the failing call, the error names the
failing channel, and the successful calls already issued stay in the trace
with nothing undoing them. The second conjunct is the scenario in which all
joins succeed and a later mark-read fails: every join stays in the trace. -/
theorem C7_abort_on_failure (joinOk leaveOk markOk : String → Bool) (now : Nat)
    (channels : List Channel) :
    (∀ pre bad post, sortStrings (joinFilter channels).1 = pre ++ bad :: post →
      (∀ n ∈ pre, joinOk n = true) → joinOk bad = false →
      joinDriver false joinOk markOk now channels
        = (Event.printPlan (pre ++ bad :: post)
            :: pre.map (fun n => Event.joinCall n true) ++ [Event.joinCall bad false],
          some (RunError.joinFailed bad)))
    ∧ (∀ pre bad post, sortStrings (joinFilter channels).1 = pre ++ bad :: post →
      (∀ n ∈ pre ++ bad :: post, joinOk n = true) →
      (∀ n ∈ pre, markOk (mapLookup (joinFilter channels).2 n) = true) →
      markOk (mapLookup (joinFilter channels).2 bad) = false →
      joinDriver false joinOk markOk now channels
        = (Event.printPlan (pre ++ bad :: post)
            :: (pre ++ bad :: post).map (fun n => Event.joinCall n true)
            ++ Event.sleep 5
            :: (pre.map (fun n => Event.markReadCall n
                  (mapLookup (joinFilter channels).2 n) (toString now) true)
              ++ [Event.markReadCall bad
                  (mapLookup (joinFilter channels).2 bad) (toString now) false]),
          some (RunError.markFailed bad)))
    ∧ (∀ pre bad post, sortStrings (leaveFilter channels).1 = pre ++ bad :: post →
      (∀ n ∈ pre, leaveOk (mapLookup (leaveFilter channels).2.2 n) = true) →
      leaveOk (mapLookup (leaveFilter channels).2.2 bad) = false →
      leaveDriver false leaveOk channels
        = (Event.printPlan (pre ++ bad :: post)
            :: pre.map (fun n => Event.leaveCall n
                (mapLookup (leaveFilter channels).2.2 n) true)
            ++ [Event.leaveCall bad
                (mapLookup (leaveFilter channels).2.2 bad) false],
          some (RunError.leaveFailed bad))) := by
  refine ⟨?_, ?_, ?_⟩
  · intro pre bad post hs hpre hbad
    have h := sortStrings_ne_nil_of_eq_append hs
    simp [joinDriver, h, hs, joinLoop_fail post hpre hbad]
  · intro pre bad post hs hall hpre hbad
    have h := sortStrings_ne_nil_of_eq_append hs
    have hjl := joinLoop_all_ok hall
    simp [joinDriver, h, hs, hjl, markLoop_fail post hpre hbad]
  · intro pre bad post hs hpre hbad
    have h := sortStrings_ne_nil_of_eq_append hs
    simp [leaveDriver, h, hs, leaveLoop_fail post hpre hbad]

/-- Witness instantiating C7 as scenario D: both joins succeed, the second
mark-read fails, the run aborts with that error and both join events stay
in the trace. -/
theorem C7_abort_on_failure_witness :
    joinDriver false (fun _ => true) (fun cid => hasPrefix cid ("C1")) 42 sampleJoinList
      = ([Event.printPlan ["_acme", "frame"],
          Event.joinCall ("_acme") true, Event.joinCall ("frame") true,
          Event.sleep 5,
          Event.markReadCall ("_acme") ("C1ID") ("42") true,
          Event.markReadCall ("frame") ("C2ID") ("42") false],
        some (RunError.markFailed ("frame"))) := by
  have happ := (C7_abort_on_failure (fun _ => true) (fun _ => true)
      (fun cid => hasPrefix cid ("C1")) 42 sampleJoinList).2.1
      ["_acme"] ("frame") [] (by decide) (by decide) (by decide) (by decide)
  rw [happ]
  rfl

/-- Whether an event belongs to the join post-action: the settling delay or
a mark-read call. -/
def Event.isPostAction : Event → Bool
  | Event.sleep _ => true
  | Event.markReadCall _ _ _ _ => true
  | _ => false

theorem joinLoop_filter_post (joinOk : String → Bool) (l : List String) :
    ((joinLoop joinOk l).1).filter Event.isPostAction = [] := by
  induction l with
  | nil => rfl
  | cons n rest ih =>
    by_cases hn : joinOk n = true
    · simp [joinLoop, hn, Event.isPostAction, ih]
    · simp [joinLoop, hn, Event.isPostAction]

theorem leaveLoop_filter_post (leaveOk : String → Bool) (ids : List (String × String))
    (l : List String) :
    ((leaveLoop leaveOk ids l).1).filter Event.isPostAction = [] := by
  induction l with
  | nil => rfl
  | cons n rest ih =>
    by_cases hn : leaveOk (mapLookup ids n) = true
    · simp [leaveLoop, hn, Event.isPostAction, ih]
    · simp [leaveLoop, hn, Event.isPostAction]

/-- C8: in a live Join run whose joins all succeed on a non-empty
selection, the driver emits the fixed five-unit settling delay and then
exactly the mark-read loop over the sorted names with the timestamp read
after the delay, appending the done message only when no mark fails, and
surfacing exactly the mark loop's error; no Leave run ever emits a delay
or a mark-read call; and a live Join run with a failing join emits no
delay and no mark-read call either. -/
theorem C8_join_postaction (joinOk leaveOk markOk : String → Bool) (now : Nat)
    (channels : List Channel) :
    ((sortStrings (joinFilter channels).1 ≠ [] →
      (∀ n ∈ sortStrings (joinFilter channels).1, joinOk n = true) →
      joinDriver false joinOk markOk now channels
        = (Event.printPlan (sortStrings (joinFilter channels).1)
            :: (sortStrings (joinFilter channels).1).map (fun n => Event.joinCall n true)
            ++ Event.sleep 5
            :: (markLoop markOk (joinFilter channels).2 (toString now)
                (sortStrings (joinFilter channels).1)).1
            ++ (if (markLoop markOk (joinFilter channels).2 (toString now)
                  (sortStrings (joinFilter channels).1)).2 = none
                then [Event.printDone] else []),
          (markLoop markOk (joinFilter channels).2 (toString now)
            (sortStrings (joinFilter channels).1)).2)))
    ∧ (∀ dry, ((leaveDriver dry leaveOk channels).1).filter Event.isPostAction = [])
    ∧ ((¬ ∀ n ∈ sortStrings (joinFilter channels).1, joinOk n = true) →
        ((joinDriver false joinOk markOk now channels).1).filter Event.isPostAction = []) := by
  refine ⟨?_, ?_, ?_⟩
  · intro hne hall
    have h : ¬ (joinFilter channels).1.isEmpty = true := by
      intro hemp
      rw [List.isEmpty_iff.mp hemp] at hne
      exact hne rfl
    have hjl := joinLoop_all_ok hall
    cases hml2 : (markLoop markOk (joinFilter channels).2 (toString now)
        (sortStrings (joinFilter channels).1)).2 with
    | some e => simp [joinDriver, h, hjl, hml2]
    | none => simp [joinDriver, h, hjl, hml2]
  · intro dry
    by_cases h : (leaveFilter channels).1.isEmpty = true
    · simp [leaveDriver, h, Event.isPostAction]
    · cases dry with
      | true => simp [leaveDriver, h, Event.isPostAction]
      | false =>
        cases hll2 : (leaveLoop leaveOk (leaveFilter channels).2.2
            (sortStrings (leaveFilter channels).1)).2 with
        | some e =>
          rcases hsplit : leaveLoop leaveOk (leaveFilter channels).2.2
              (sortStrings (leaveFilter channels).1) with ⟨evs, err⟩
          have hevs : evs.filter Event.isPostAction = [] := by
            have := leaveLoop_filter_post leaveOk (leaveFilter channels).2.2
              (sortStrings (leaveFilter channels).1)
            rw [hsplit] at this
            exact this
          rw [hsplit] at hll2
          simp at hll2
          simp [leaveDriver, h, hsplit, hll2, Event.isPostAction, hevs]
        | none =>
          rcases hsplit : leaveLoop leaveOk (leaveFilter channels).2.2
              (sortStrings (leaveFilter channels).1) with ⟨evs, err⟩
          have hevs : evs.filter Event.isPostAction = [] := by
            have := leaveLoop_filter_post leaveOk (leaveFilter channels).2.2
              (sortStrings (leaveFilter channels).1)
            rw [hsplit] at this
            exact this
          rw [hsplit] at hll2
          simp at hll2
          simp [leaveDriver, h, hsplit, hll2, Event.isPostAction, hevs]
  · intro hnall
    by_cases h : (joinFilter channels).1.isEmpty = true
    · simp [joinDriver, h, Event.isPostAction]
    · cases hjl2 : (joinLoop joinOk (sortStrings (joinFilter channels).1)).2 with
      | none => exact absurd (joinLoop_none_iff.mp hjl2) hnall
      | some e =>
        rcases hsplit : joinLoop joinOk (sortStrings (joinFilter channels).1)
          with ⟨evs, err⟩
        have hevs : evs.filter Event.isPostAction = [] := by
          have := joinLoop_filter_post joinOk (sortStrings (joinFilter channels).1)
          rw [hsplit] at this
          exact this
        rw [hsplit] at hjl2
        simp at hjl2
        simp [joinDriver, h, hsplit, hjl2, Event.isPostAction, hevs]

/-- Witness instantiating C8 on the scenario input with all-success
oracles. -/
theorem C8_join_postaction_witness :
    joinDriver false (fun _ => true) (fun _ => true) 9 sampleJoinList
      = (Event.printPlan (sortStrings (joinFilter sampleJoinList).1)
          :: (sortStrings (joinFilter sampleJoinList).1).map
              (fun n => Event.joinCall n true)
          ++ Event.sleep 5
          :: (markLoop (fun _ => true) (joinFilter sampleJoinList).2 (toString 9)
              (sortStrings (joinFilter sampleJoinList).1)).1
          ++ (if (markLoop (fun _ => true) (joinFilter sampleJoinList).2 (toString 9)
                (sortStrings (joinFilter sampleJoinList).1)).2 = none
              then [Event.printDone] else []),
        (markLoop (fun _ => true) (joinFilter sampleJoinList).2 (toString 9)
          (sortStrings (joinFilter sampleJoinList).1)).2) :=
  (C8_join_postaction (fun _ => true) (fun _ => true) (fun _ => true) 9
    sampleJoinList).1 (by decide) (by decide)

theorem markLoop_ts {markOk : String → Bool} {ids : List (String × String)}
    {ts0 : String} : ∀ {l : List String} {n cid ts : String} {b : Bool},
    Event.markReadCall n cid ts b ∈ (markLoop markOk ids ts0 l).1 → ts = ts0 := by
  intro l
  induction l with
  | nil => intro n cid ts b he; cases he
  | cons m rest ih =>
    intro n cid ts b he
    by_cases hm : markOk (mapLookup ids m) = true
    · simp [markLoop, hm] at he
      rcases he with ⟨h1, h2, h3, h4⟩ | hmem
      · exact h3
      · exact ih hmem
    · simp [markLoop, hm] at he
      exact he.2.2.1

theorem markLoop_names_take (markOk : String → Bool) (ids : List (String × String))
    (ts : String) : ∀ l : List String,
    ∃ k, List.filterMap Event.markName (markLoop markOk ids ts l).1 = l.take k := by
  intro l
  induction l with
  | nil => exact ⟨0, rfl⟩
  | cons n rest ih =>
    by_cases hn : markOk (mapLookup ids n) = true
    · rcases ih with ⟨k, hk⟩
      refine ⟨k + 1, ?_⟩
      simp [markLoop, hn, List.filterMap_cons, Event.markName, hk]
    · exact ⟨1, by simp [markLoop, hn, List.filterMap_cons, Event.markName]⟩

theorem markLoop_filter_joinName (markOk : String → Bool)
    (ids : List (String × String)) (ts : String) (l : List String) :
    List.filterMap Event.joinName (markLoop markOk ids ts l).1 = [] := by
  induction l with
  | nil => rfl
  | cons n rest ih =>
    by_cases hn : markOk (mapLookup ids n) = true
    · simp [markLoop, hn, List.filterMap_cons, Event.joinName, ih]
    · simp [markLoop, hn, List.filterMap_cons, Event.joinName]

/-- C10: in a live Join run whose joins all succeed, every mark-read call
in the trace carries the one timestamp read after the settling delay, and
the sequence of marked names is an initial segment of the sequence of
joined names, hence issued in the same sorted order. -/
theorem C10_single_timestamp (joinOk markOk : String → Bool) (now : Nat)
    (channels : List Channel)
    (hall : ∀ n ∈ sortStrings (joinFilter channels).1, joinOk n = true) :
    (∀ n cid ts b,
      Event.markReadCall n cid ts b ∈ (joinDriver false joinOk markOk now channels).1 →
        ts = toString now)
    ∧ (∃ k, markNamesOf (joinDriver false joinOk markOk now channels).1
        = (joinNamesOf (joinDriver false joinOk markOk now channels).1).take k) := by
  by_cases h : (joinFilter channels).1.isEmpty = true
  · constructor
    · intro n cid ts b hmem
      simp [joinDriver, h] at hmem
    · exact ⟨0, by simp [joinDriver, h, markNamesOf, joinNamesOf,
        List.filterMap_cons, Event.markName, Event.joinName]⟩
  · have hjl := joinLoop_all_ok hall
    cases hml2 : (markLoop markOk (joinFilter channels).2 (toString now)
        (sortStrings (joinFilter channels).1)).2 with
    | some e =>
      constructor
      · intro n cid ts b hmem
        simp [joinDriver, h, hjl, hml2] at hmem
        exact markLoop_ts hmem
      · rcases markLoop_names_take markOk (joinFilter channels).2 (toString now)
            (sortStrings (joinFilter channels).1) with ⟨k, hk⟩
        refine ⟨k, ?_⟩
        simp [joinDriver, h, hjl, hml2, markNamesOf, joinNamesOf,
          List.filterMap_cons, List.filterMap_append, Function.comp_def,
          Event.markName, Event.joinName, filterMap_const_some,
          filterMap_const_none, markLoop_filter_joinName, hk]
    | none =>
      constructor
      · intro n cid ts b hmem
        simp [joinDriver, h, hjl, hml2] at hmem
        exact markLoop_ts hmem
      · rcases markLoop_names_take markOk (joinFilter channels).2 (toString now)
            (sortStrings (joinFilter channels).1) with ⟨k, hk⟩
        refine ⟨k, ?_⟩
        simp [joinDriver, h, hjl, hml2, markNamesOf, joinNamesOf,
          List.filterMap_cons, List.filterMap_append, Function.comp_def,
          Event.markName, Event.joinName, filterMap_const_some,
          filterMap_const_none, markLoop_filter_joinName, hk]

/-- Witness instantiating C10 on the scenario input with all-success
oracles. -/
theorem C10_single_timestamp_witness :
    (∀ n cid ts b,
      Event.markReadCall n cid ts b
          ∈ (joinDriver false (fun _ => true) (fun _ => true) 5 sampleJoinList).1 →
        ts = toString 5)
    ∧ (∃ k, markNamesOf (joinDriver false (fun _ => true) (fun _ => true) 5
            sampleJoinList).1
        = (joinNamesOf (joinDriver false (fun _ => true) (fun _ => true) 5
            sampleJoinList).1).take k) :=
  C10_single_timestamp (fun _ => true) (fun _ => true) 5 sampleJoinList (by decide)

/-- The pagination loop of getAllChannels, src/main.go lines 62-81: starting
from the empty cursor, fetch a page, stop with an error as soon as a fetch
fails, append the page to the accumulator, finish when the returned next
cursor is empty, otherwise continue from it. The fetch oracle stands for
GetConversationsContext; the fuel bounds the number of iterations modelled,
with none meaning the loop is still running after that many steps. -/
def getAllChannelsAux (fetch : String → Except String (List Channel × String)) :
    Nat → String → List Channel → Option (Except String (List Channel))
  | 0, _, _ => none
  | Nat.succ fuel, cursor, channels =>
    match fetch cursor with
    | Except.error e => some (Except.error e)
    | Except.ok pg =>
      if pg.2 = "" then some (Except.ok (channels ++ pg.1))
      else getAllChannelsAux fetch fuel pg.2 (channels ++ pg.1)

/-- The whole listing operation: the loop started on the empty cursor with
an empty accumulator. -/
def getAllChannels (fetch : String → Except String (List Channel × String))
    (fuel : Nat) : Option (Except String (List Channel)) :=
  getAllChannelsAux fetch fuel ("") []

/-- A terminating cursor chain of the fetch oracle: from the given cursor
the oracle answers the listed pages in order, each carrying the next
cursor, every cursor but the last non-empty, the last empty. -/
def ChainOk (fetch : String → Except String (List Channel × String)) :
    String → List (List Channel × String) → Prop
  | _, [] => False
  | c, p :: rest =>
    fetch c = Except.ok p ∧
      match rest with
      | [] => p.2 = ""
      | _ :: _ => p.2 ≠ "" ∧ ChainOk fetch p.2 rest

/-- A cursor chain that fails: from the given cursor the oracle answers k
pages with non-empty next cursors and then fails with the given error. -/
def ChainFails (fetch : String → Except String (List Channel × String)) :
    String → Nat → String → Prop
  | c, 0, e => fetch c = Except.error e
  | c, Nat.succ k, e =>
    ∃ p, fetch c = Except.ok p ∧ p.2 ≠ "" ∧ ChainFails fetch p.2 k e

theorem getAllChannelsAux_ok {fetch : String → Except String (List Channel × String)} :
    ∀ (pages : List (List Channel × String)) (cursor : String) (acc : List Channel)
      (fuel : Nat), ChainOk fetch cursor pages → pages.length ≤ fuel →
      getAllChannelsAux fetch fuel cursor acc
        = some (Except.ok (acc ++ (pages.map Prod.fst).flatten)) := by
  intro pages
  induction pages with
  | nil => intro _ _ _ hc _; cases hc
  | cons p rest ih =>
    intro cursor acc fuel hc hlen
    cases fuel with
    | zero => simp at hlen
    | succ fuel =>
      rcases hc with ⟨hf, hrest⟩
      cases rest with
      | nil => simp [getAllChannelsAux, hf, hrest]
      | cons q rest2 =>
        rcases hrest with ⟨hne, hc2⟩
        rw [show getAllChannelsAux fetch (Nat.succ fuel) cursor acc
            = getAllChannelsAux fetch fuel p.2 (acc ++ p.1) by
          simp [getAllChannelsAux, hf, hne]]
        rw [ih p.2 (acc ++ p.1) fuel hc2 (Nat.le_of_succ_le_succ hlen)]
        simp

theorem getAllChannelsAux_fail {fetch : String → Except String (List Channel × String)}
    {e : String} : ∀ (k : Nat) (cursor : String) (acc : List Channel) (fuel : Nat),
      ChainFails fetch cursor k e → k < fuel →
      getAllChannelsAux fetch fuel cursor acc = some (Except.error e) := by
  intro k
  induction k with
  | zero =>
    intro cursor acc fuel hc hlt
    cases fuel with
    | zero => cases hlt
    | succ fuel =>
      have hf : fetch cursor = Except.error e := hc
      simp [getAllChannelsAux, hf]
  | succ k ih =>
    intro cursor acc fuel hc hlt
    cases fuel with
    | zero => cases hlt
    | succ fuel =>
      rcases hc with ⟨p, hf, hne, hc2⟩
      rw [show getAllChannelsAux fetch (Nat.succ fuel) cursor acc
          = getAllChannelsAux fetch fuel p.2 (acc ++ p.1) by
        simp [getAllChannelsAux, hf, hne]]
      exact ih p.2 (acc ++ p.1) fuel hc2 (Nat.lt_of_succ_lt_succ hlt)

/-- C9: when the oracle's cursor chain from the empty cursor terminates,
the listing returns the concatenation of the pages in page order; when the
chain reaches a failing fetch, the whole listing returns that error and
none of the pages already fetched, so the operation is all-or-nothing. -/
theorem C9_pagination (fetch : String → Except String (List Channel × String))
    (fuel : Nat) :
    (∀ pages, ChainOk fetch ("") pages → pages.length ≤ fuel →
      getAllChannels fetch fuel = some (Except.ok ((pages.map Prod.fst).flatten)))
    ∧ (∀ k e, ChainFails fetch ("") k e → k < fuel →
      getAllChannels fetch fuel = some (Except.error e)) := by
  constructor
  · intro pages hc hlen
    rw [getAllChannels, getAllChannelsAux_ok pages ("") [] fuel hc hlen]
    simp
  · intro k e hc hlt
    rw [getAllChannels, getAllChannelsAux_fail k ("") [] fuel hc hlt]

/-- A two-page oracle for the witness. -/
def fetchTwoPages : String → Except String (List Channel × String) :=
  fun c =>
    if c = "" then Except.ok ([⟨"A", "alpha", false, false⟩], "p2")
    else if c = "p2" then Except.ok ([⟨"B", "beta", true, false⟩], "")
    else Except.error ("unknown cursor")

/-- An oracle whose second fetch fails, for the witness. -/
def fetchThenFails : String → Except String (List Channel × String) :=
  fun c =>
    if c = "" then Except.ok ([⟨"A", "alpha", false, false⟩], "p2")
    else Except.error ("boom")

/-- Witness instantiating C9 on a two-page chain and on a chain whose
second fetch fails. -/
theorem C9_pagination_witness :
    getAllChannels fetchTwoPages 2
        = some (Except.ok [⟨"A", "alpha", false, false⟩, ⟨"B", "beta", true, false⟩])
    ∧ getAllChannels fetchThenFails 2 = some (Except.error ("boom")) :=
  ⟨(C9_pagination fetchTwoPages 2).1
      [([⟨"A", "alpha", false, false⟩], "p2"), ([⟨"B", "beta", true, false⟩], "")]
      ⟨rfl, by decide, rfl, rfl⟩ (by decide),
    (C9_pagination fetchThenFails 2).2 1 ("boom")
      ⟨([⟨"A", "alpha", false, false⟩], "p2"), rfl, by decide, rfl⟩ (by decide)⟩
